import Mathlib

/-!
Verification of the transcript normalization and conversational rendering
engine of the dashboard-stats repository (src/modules/TranscriptFormatter.js
and the near-duplicate copy in src/app.js).

The JavaScript is shallowly embedded: JS values that can reach the
normalizer are modelled by the inductive `JsVal` (floats, `undefined` and
functions never occur in the modelled payloads and are omitted); code that
can throw a `TypeError` is modelled in the `Except JsErr` monad; the
host-runtime primitives the code calls (`JSON.parse`, `JSON.stringify`,
`String.prototype.trim/split/toLowerCase`, `Array.prototype.join`, and the
DOM text-node serialization used by `escapeHtml`) are modelled once, below,
and shared by both embedded copies of the normalizer, exactly as the two
copies share one browser runtime.
-/

namespace DashStats

/-- A JavaScript value as it can reach the transcript normalizer:
null, booleans, (integer) numbers, strings, arrays and plain objects.
Objects are association lists in insertion order with unique keys
(the shape `JSON.parse` produces). -/
inductive JsVal where
  | vNull
  | vBool (b : Bool)
  | vNum (n : Int)
  | vStr (s : String)
  | vArr (xs : List JsVal)
  | vObj (fs : List (String × JsVal))

/-- The one runtime error the embedded code can raise: a `TypeError`
(property access on `null`, calling a string method on a non-string,
calling `.map` on a non-array). -/
inductive JsErr where
  | typeError
  deriving DecidableEq

/-- One normalized conversation turn, `{speaker, text}` as pushed by the
parsers (speaker is the already-normalized `"agent"`/`"user"` string). -/
structure Msg where
  speaker : String
  text : String
  deriving DecidableEq

/-- JavaScript truthiness for the modelled values: `null`, `false`, `0`
and `""` are falsy, everything else (including `[]` and objects) truthy. -/
def truthy : JsVal → Bool
  | .vNull => false
  | .vBool b => b
  | .vNum n => n != 0
  | .vStr s => s != ""
  | .vArr _ => true
  | .vObj _ => true

/-- `v` is an array (`Array.isArray`). -/
def isArr : JsVal → Bool
  | .vArr _ => true
  | _ => false

/-- First binding of key `k` in an object's field list (keys are unique). -/
def objGet (fs : List (String × JsVal)) (k : String) : Option JsVal :=
  match fs.find? (fun kv => kv.1 == k) with
  | some kv => some kv.2
  | none => none

/-- JS property access `v[k]`: a `TypeError` on `null`, the bound value on
an object that has the key, and `undefined` (here `none`) otherwise
(missing key, or a primitive/array receiver, which has no such data
property). -/
def getField : JsVal → String → Except JsErr (Option JsVal)
  | .vNull, _ => .error .typeError
  | .vObj fs, k => .ok (objGet fs k)
  | _, _ => .ok none

/-- The result of a property access, filtered by the `if (obj.k)`
truthiness tests the source performs: `some v` when present and truthy. -/
def truthyOpt : Option JsVal → Option JsVal
  | some v => if truthy v then some v else none
  | none => none

/-- Whitespace as recognized by `String.prototype.trim` and the regex
class `\s` (ASCII whitespace plus no-break space; the never-occurring
exotic Unicode space separators are omitted). -/
def isJsSpace (c : Char) : Bool :=
  c == ' ' || c == '\t' || c == '\n' || c == '\r' || c == '\x0b' || c == '\x0c' || c == '\xa0'

/-- Strip leading and trailing whitespace from a character list. -/
def trimChars (l : List Char) : List Char :=
  ((l.dropWhile isJsSpace).reverse.dropWhile isJsSpace).reverse

/-- Host primitive `String.prototype.trim`. -/
def jsTrim (s : String) : String := ⟨trimChars s.data⟩

/-- Host primitive `String.prototype.toLowerCase` (ASCII range; the
speaker labels it is applied to are ASCII). -/
def lowerStr (s : String) : String := ⟨s.data.map Char.toLower⟩

/-- Host primitive `String.prototype.toLowerCase` as called on a field
value of unknown type: a `TypeError` unless the receiver is a string. -/
def jsToLowerCase : JsVal → Except JsErr String
  | .vStr s => .ok (lowerStr s)
  | _ => .error .typeError

/-- Accumulator pass for `splitLines`. -/
def splitLinesAux : List Char → List Char → List String
  | [], acc => [⟨acc.reverse⟩]
  | c :: rest, acc =>
    if c = '\n' then ⟨acc.reverse⟩ :: splitLinesAux rest []
    else splitLinesAux rest (c :: acc)

/-- Host primitive `text.split(/\n/)`: split on newlines, keeping empty
segments (so `""` splits to `[""]`, like in JS). -/
def splitLines (s : String) : List String := splitLinesAux s.data []

/-- Join a list of strings with a separator, `Array.prototype.join`
style (empty list joins to `""`). -/
def joinSep (sep : String) : List String → String
  | [] => ""
  | [x] => x
  | x :: y :: ys => x ++ sep ++ joinSep sep (y :: ys)

/-- Decimal digits of `n`, fuel-recursive (fuel `n+1` always suffices). -/
def natDecF : Nat → Nat → List Char
  | 0, _ => []
  | f+1, n =>
    if n < 10 then [Char.ofNat (48 + n)]
    else natDecF f (n / 10) ++ [Char.ofNat (48 + n % 10)]

/-- Decimal rendering of a natural number. -/
def natDec (n : Nat) : String := ⟨natDecF (n+1) n⟩

/-- Decimal rendering of an integer (JS `String(number)` for integers). -/
def intDec : Int → String
  | .ofNat n => natDec n
  | .negSucc n => "-" ++ natDec (n+1)

mutual
/-- Element stringification used by `Array.prototype.join`: `null` joins
as the empty string, arrays recursively join with commas, objects print
as `[object Object]`. This is JS `String(v)` for the modelled values. -/
def jsStringOf : JsVal → String
  | .vNull => ""
  | .vBool b => if b then "true" else "false"
  | .vNum n => intDec n
  | .vStr s => s
  | .vArr xs => joinSep "," (jsStringOfL xs)
  | .vObj _ => "[object Object]"

/-- Stringify each element of a list, for `jsStringOf` on arrays. -/
def jsStringOfL : List JsVal → List String
  | [] => []
  | x :: rest => jsStringOf x :: jsStringOfL rest
end

/-- One hex digit (lowercase, as `JSON.stringify` emits in `\uXXXX`). -/
def hexDigit (n : Nat) : Char :=
  if n < 10 then Char.ofNat (48 + n) else Char.ofNat (87 + n)

/-- Four-digit hex rendering of a code point below 0x10000. -/
def hex4 (n : Nat) : List Char :=
  [hexDigit (n / 4096 % 16), hexDigit (n / 256 % 16), hexDigit (n / 16 % 16), hexDigit (n % 16)]

/-- String-character escaping performed by `JSON.stringify`. -/
def escJsonChar (c : Char) : List Char :=
  if c == '"' then ['\\', '"']
  else if c == '\\' then ['\\', '\\']
  else if c == '\x08' then ['\\', 'b']
  else if c == '\x0c' then ['\\', 'f']
  else if c == '\n' then ['\\', 'n']
  else if c == '\r' then ['\\', 'r']
  else if c == '\t' then ['\\', 't']
  else if c.toNat < 32 then '\\' :: 'u' :: hex4 c.toNat
  else [c]

/-- Quoted, escaped JSON rendering of a string. -/
def jsonQuote (s : String) : String :=
  "\"" ++ ⟨s.data.flatMap escJsonChar⟩ ++ "\""

mutual
/-- Host primitive `JSON.stringify` on the modelled values (always
defined: the modelled values contain no `undefined`, functions or
cycles). -/
def jsonStringify : JsVal → String
  | .vNull => "null"
  | .vBool b => if b then "true" else "false"
  | .vNum n => intDec n
  | .vStr s => jsonQuote s
  | .vArr xs => "[" ++ joinSep "," (jsonStringifyL xs) ++ "]"
  | .vObj fs => "\x7b" ++ joinSep "," (jsonStringifyF fs) ++ "\x7d"

/-- Stringify array elements for `jsonStringify`. -/
def jsonStringifyL : List JsVal → List String
  | [] => []
  | x :: rest => jsonStringify x :: jsonStringifyL rest

/-- Stringify object members for `jsonStringify`. -/
def jsonStringifyF : List (String × JsVal) → List String
  | [] => []
  | kv :: rest => (jsonQuote kv.1 ++ ":" ++ jsonStringify kv.2) :: jsonStringifyF rest
end

/-! ### The host JSON parser (`JSON.parse`)

Modelled as a total function returning `none` where `JSON.parse` throws a
`SyntaxError`. The recursion is structural on a fuel counter; the fuel
chosen in `jsonParse` is always sufficient (each two fuel levels consume
at least one input character). Number literals are modelled for the
integer fragment; fraction/exponent forms (which would need floats) are
outside the modelled fragment and map to `none`. -/

/-- JSON insignificant whitespace. -/
def isJsonWs (c : Char) : Bool := c == ' ' || c == '\t' || c == '\n' || c == '\r'

/-- Skip JSON insignificant whitespace. -/
def skipJsonWs (l : List Char) : List Char := l.dropWhile isJsonWs

/-- Expect a literal character sequence, returning the remainder. -/
def pLit : List Char → List Char → Option (List Char)
  | [], cs => some cs
  | _ :: _, [] => none
  | e :: es, c :: cs => if c == e then pLit es cs else none

/-- Value of a hex digit, for `\uXXXX` escapes. -/
def hexVal (c : Char) : Option Nat :=
  if '0' ≤ c ∧ c ≤ '9' then some (c.toNat - 48)
  else if 'a' ≤ c ∧ c ≤ 'f' then some (c.toNat - 87)
  else if 'A' ≤ c ∧ c ≤ 'F' then some (c.toNat - 70)
  else none

/-- Body of a JSON string after the opening quote: collected characters
and the remainder after the closing quote. Raw control characters are a
syntax error; the escapes of the JSON grammar are decoded (surrogate
pairs are outside the modelled fragment and decode per `Char.ofNat`). -/
def pStrBody : Nat → List Char → Option (List Char × List Char)
  | 0, _ => none
  | _+1, [] => none
  | f+1, c :: rest =>
    if c == '"' then some ([], rest)
    else if c == '\\' then
      match rest with
      | [] => none
      | e :: rest2 =>
        let dec : Option (Char × List Char) :=
          if e == '"' then some ('"', rest2)
          else if e == '\\' then some ('\\', rest2)
          else if e == '/' then some ('/', rest2)
          else if e == 'b' then some ('\x08', rest2)
          else if e == 'f' then some ('\x0c', rest2)
          else if e == 'n' then some ('\n', rest2)
          else if e == 'r' then some ('\r', rest2)
          else if e == 't' then some ('\t', rest2)
          else if e == 'u' then
            match rest2 with
            | h1 :: h2 :: h3 :: h4 :: rest3 =>
              match hexVal h1, hexVal h2, hexVal h3, hexVal h4 with
              | some a, some b, some c3, some d =>
                some (Char.ofNat (a * 4096 + b * 256 + c3 * 16 + d), rest3)
              | _, _, _, _ => none
            | _ => none
          else none
        match dec with
        | some (d, r) => (pStrBody f r).map (fun lr => (d :: lr.1, lr.2))
        | none => none
    else if c.toNat < 32 then none
    else (pStrBody f rest).map (fun lr => (c :: lr.1, lr.2))

/-- JSON integer literal: optional minus, then `0` or a nonzero-led digit
run; a following `.`, `e` or `E` is outside the modelled fragment. -/
def pNum (cs : List Char) : Option (Int × List Char) :=
  let neg : Bool := match cs with | '-' :: _ => true | _ => false
  let cs1 := match cs with | '-' :: r => r | _ => cs
  let digs := cs1.takeWhile Char.isDigit
  let rest := cs1.dropWhile Char.isDigit
  if digs = [] then none
  else if 1 < digs.length ∧ digs.head? = some '0' then none
  else
    match rest with
    | '.' :: _ => none
    | 'e' :: _ => none
    | 'E' :: _ => none
    | _ =>
      let n : Nat := digs.foldl (fun a c => a * 10 + (c.toNat - 48)) 0
      some (if neg then -(n : Int) else (n : Int), rest)

/-- Insert a member into an object under construction: a repeated key
overwrites in place (JS object semantics), a new key appends. -/
def objInsert (fs : List (String × JsVal)) (k : String) (v : JsVal) : List (String × JsVal) :=
  if fs.any (fun kv => kv.1 == k) then
    fs.map (fun kv => if kv.1 == k then (kv.1, v) else kv)
  else fs ++ [(k, v)]

/-- Parser mode: a single value, the element loop of an array, or the
member loop of an object (with the members collected so far). -/
inductive PMode where
  | value
  | arrElems (acc : List JsVal)
  | objMembers (acc : List (String × JsVal))

/-- The recursive core of `JSON.parse`, structural on fuel. In `value`
mode the input starts at a value token; loop modes start at the first
element/member (the empty-collection cases are handled before entering
the loop). -/
def pRun : Nat → PMode → List Char → Option (JsVal × List Char)
  | 0, _, _ => none
  | f+1, .value, cs =>
    match cs with
    | [] => none
    | c :: rest =>
      if c == '"' then
        match pStrBody (rest.length + 1) rest with
        | some (l, r) => some (.vStr ⟨l⟩, r)
        | none => none
      else if c == '[' then
        match skipJsonWs rest with
        | ']' :: r2 => some (.vArr [], r2)
        | r => pRun f (.arrElems []) r
      else if c == '\x7b' then
        match skipJsonWs rest with
        | '\x7d' :: r2 => some (.vObj [], r2)
        | r => pRun f (.objMembers []) r
      else if c == 't' then (pLit "rue".data rest).map (fun r => (.vBool true, r))
      else if c == 'f' then (pLit "alse".data rest).map (fun r => (.vBool false, r))
      else if c == 'n' then (pLit "ull".data rest).map (fun r => (.vNull, r))
      else if c == '-' || c.isDigit then
        (pNum cs).map (fun nr => (.vNum nr.1, nr.2))
      else none
  | f+1, .arrElems acc, cs =>
    match pRun f .value cs with
    | none => none
    | some (v, r) =>
      match skipJsonWs r with
      | ',' :: r2 => pRun f (.arrElems (acc ++ [v])) (skipJsonWs r2)
      | ']' :: r2 => some (.vArr (acc ++ [v]), r2)
      | _ => none
  | f+1, .objMembers acc, cs =>
    match cs with
    | '"' :: rest =>
      match pStrBody (rest.length + 1) rest with
      | none => none
      | some (kl, r1) =>
        match skipJsonWs r1 with
        | ':' :: r2 =>
          match pRun f .value (skipJsonWs r2) with
          | none => none
          | some (v, r3) =>
            let acc2 := objInsert acc ⟨kl⟩ v
            match skipJsonWs r3 with
            | ',' :: r4 => pRun f (.objMembers acc2) (skipJsonWs r4)
            | '\x7d' :: r4 => some (.vObj acc2, r4)
            | _ => none
        | _ => none
    | _ => none

/-- Host primitive `JSON.parse`: `some` of the decoded value when the
entire input is valid JSON, `none` where `JSON.parse` throws. -/
def jsonParse (s : String) : Option JsVal :=
  let cs := skipJsonWs s.data
  match pRun (2 * s.data.length + 8) .value cs with
  | some (v, rest) => if skipJsonWs rest = [] then some v else none
  | none => none

/-! ### The DOM text-node serialization used by `escapeHtml`

The source escapes by assigning `div.textContent` and reading back
`div.innerHTML`. The HTML fragment-serialization algorithm escapes, in
text-node position, exactly `&`, `<`, `>` and the no-break space — and,
notably, does not touch quote characters. -/

/-- Serialization of one text-node character. -/
def escCharL (c : Char) : List Char :=
  if c == '&' then "&amp;".data
  else if c == '\xa0' then "&nbsp;".data
  else if c == '<' then "&lt;".data
  else if c == '>' then "&gt;".data
  else [c]

/-- Host/DOM primitive: `innerHTML` of a div whose `textContent` is `s`. -/
def textNodeSerialize (s : String) : String := ⟨s.data.flatMap escCharL⟩

/-- Case-insensitive anchored matching of a literal pattern, as the
regex engine performs for an `/^.../i` literal alternative: does `cs`
start with the pattern characters, ignoring case? -/
def ciStartsWith : List Char → List Char → Bool
  | [], _ => true
  | _ :: _, [] => false
  | pc :: ps, c :: cs => pc.toLower == c.toLower && ciStartsWith ps cs

/-- Does the trimmed string start with `[` or with `\x7b`? This is the
`trimmed.startsWith('[') || trimmed.startsWith('\x7b')` test. -/
def headIsJsonStart (s : String) : Bool :=
  match s.data with
  | '[' :: _ => true
  | '\x7b' :: _ => true
  | _ => false

/-!
## The TranscriptFormatter module (src/modules/TranscriptFormatter.js)

Each definition below embeds the function of the same name.
-/

namespace TF

/-- The `agentRoles` list of `normalizeRole`. -/
def agentRoles : List String :=
  ["agent", "ai", "bot", "asistente", "chatbot", "assistant", "agente"]

/-- Embeds `normalizeRole`: membership test (`indexOf !== -1`) in the
agent-role list, `"agent"` on a hit and `"user"` otherwise. -/
def normalizeRole (role : String) : String :=
  if agentRoles.contains role then "agent" else "user"

/-- Embeds the speaker-detection chain of `parseRetellArray`:
`item.role`, else `item.speaker`, else `item.type`, lowercased when the
found value is truthy; `""` when none is. Accessing a field of `null`
or lowercasing a non-string throws. -/
def resolveSpeaker (item : JsVal) : Except JsErr String :=
  match getField item "role" with
  | .error e => .error e
  | .ok r1 =>
    match truthyOpt r1 with
    | some v => jsToLowerCase v
    | none =>
      match getField item "speaker" with
      | .error e => .error e
      | .ok r2 =>
        match truthyOpt r2 with
        | some v => jsToLowerCase v
        | none =>
          match getField item "type" with
          | .error e => .error e
          | .ok r3 =>
            match truthyOpt r3 with
            | some v => jsToLowerCase v
            | none => .ok ""

/-- Embeds the per-word mapping `function (w) { return w.word || w; }`
followed by the `join(' ')` stringification of each element. -/
def wordsStrings : List JsVal → Except JsErr (List String)
  | [] => .ok []
  | w :: rest =>
    match getField w "word" with
    | .error e => .error e
    | .ok r =>
      let elem : JsVal :=
        match truthyOpt r with
        | some v => v
        | none => w
      match wordsStrings rest with
      | .error e => .error e
      | .ok tail => .ok (jsStringOf elem :: tail)

/-- Embeds `item.words.map(...).join(' ')`: a `TypeError` when the truthy
`words` value is not an array (no `.map`), otherwise the joined text. -/
def wordsJoin : JsVal → Except JsErr String
  | .vArr ws =>
    match wordsStrings ws with
    | .error e => .error e
    | .ok strs => .ok (joinSep " " strs)
  | _ => .error .typeError

/-- Embeds the text-detection chain of `parseRetellArray`: `item.content`,
else `item.text`, else `item.message`, else the joined `item.words`;
the string `""` when none of the fields is truthy. The resolved value is
kept as a `JsVal` because the source only later discovers, via
`text.trim()`, whether it was a string. -/
def resolveText (item : JsVal) : Except JsErr JsVal :=
  match getField item "content" with
  | .error e => .error e
  | .ok r1 =>
    match truthyOpt r1 with
    | some v => .ok v
    | none =>
      match getField item "text" with
      | .error e => .error e
      | .ok r2 =>
        match truthyOpt r2 with
        | some v => .ok v
        | none =>
          match getField item "message" with
          | .error e => .error e
          | .ok r3 =>
            match truthyOpt r3 with
            | some v => .ok v
            | none =>
              match getField item "words" with
              | .error e => .error e
              | .ok r4 =>
                match truthyOpt r4 with
                | some w =>
                  match wordsJoin w with
                  | .error e => .error e
                  | .ok s => .ok (.vStr s)
                | none => .ok (.vStr "")

/-- Embeds `if (text && text.trim()) { push ... text.trim() }`: `none`
when the entry is dropped, the trimmed text when it is pushed, and a
`TypeError` when the truthy resolved text is not a string. -/
def pushCheck (text : JsVal) : Except JsErr (Option String) :=
  if truthy text then
    match text with
    | .vStr s => .ok (if jsTrim s = "" then none else some (jsTrim s))
    | _ => .error .typeError
  else .ok none

/-- Embeds `parseRetellArray`: iterate the entries in order, resolving
speaker then text, pushing `{normalizeRole speaker, text.trim()}` for
entries with non-blank text. An uncaught `TypeError` aborts the loop. -/
def parseRetellArray : List JsVal → Except JsErr (List Msg)
  | [] => .ok []
  | item :: rest =>
    match resolveSpeaker item with
    | .error e => .error e
    | .ok speaker =>
      match resolveText item with
      | .error e => .error e
      | .ok text =>
        match pushCheck text with
        | .error e => .error e
        | .ok none => parseRetellArray rest
        | .ok (some t) =>
          match parseRetellArray rest with
          | .error e => .error e
          | .ok tail => .ok (⟨normalizeRole speaker, t⟩ :: tail)

/-- The alternatives of the `speakerRegex` literal, in source order. -/
def speakerLabels : List String :=
  ["Agent", "User", "AI", "Customer", "Bot", "Cliente", "Asistente",
   "Chatbot", "Human", "Humano", "Assistant", "Agente"]

/-- First alternative of the anchored pattern that matches: the regex
engine tries the labels in order and requires the literal `:` after the
group, so the matching label is the first one the line starts with
(case-insensitively) followed by a colon. -/
def findLabel : List String → List Char → Option String
  | [], _ => none
  | lab :: rest, cs =>
    if ciStartsWith (lab.data ++ [':']) cs then some lab else findLabel rest cs

/-- Embeds `line.match(speakerRegex)`: on a match, the captured group as
it appears in the line and the remainder of the line after the full
match (label, colon, and the `\s*` run). -/
def matchSpeaker (cs : List Char) : Option (List Char × List Char) :=
  match findLabel speakerLabels cs with
  | none => none
  | some lab =>
    some (cs.take lab.data.length, (cs.drop (lab.data.length + 1)).dropWhile isJsSpace)

/-- Embeds the line loop of `parseTextTranscript` with its three state
variables: the remaining lines, `currentSpeaker`, `currentMessage`, and
the messages pushed so far; the final flush happens at the end of the
line list. -/
def parseTextLoop : List String → String → String → List Msg → List Msg
  | [], currentSpeaker, currentMessage, msgs =>
    if jsTrim currentMessage = "" then msgs
    else msgs ++ [⟨normalizeRole currentSpeaker, jsTrim currentMessage⟩]
  | rawLine :: rest, currentSpeaker, currentMessage, msgs =>
    let line := jsTrim rawLine
    if line = "" then parseTextLoop rest currentSpeaker currentMessage msgs
    else
      match matchSpeaker line.data with
      | some gr =>
        let msgs2 :=
          if jsTrim currentMessage = "" then msgs
          else msgs ++ [⟨normalizeRole currentSpeaker, jsTrim currentMessage⟩]
        parseTextLoop rest (lowerStr ⟨gr.1⟩) ⟨gr.2⟩ msgs2
      | none =>
        let newMsg := if currentMessage = "" then line else currentMessage ++ " " ++ line
        parseTextLoop rest currentSpeaker newMsg msgs

/-- Embeds `parseTextTranscript`: split on newlines and run the loop
with empty initial speaker, buffer and message list. -/
def parseTextTranscript (text : String) : List Msg :=
  parseTextLoop (splitLines text) "" "" []

/-- Embeds `escapeHtml`: `''` for falsy input, otherwise the DOM
text-node round-trip `div.textContent = text; div.innerHTML`. -/
def escapeHtml (text : String) : String :=
  if text = "" then "" else textNodeSerialize text

/-- One loop iteration of `generateConversationHtml`: the bubble markup
for a single message. -/
def msgHtml (msg : Msg) : String :=
  let isAgent := msg.speaker == "agent"
  let bubbleClass := if isAgent then "transcript-bubble agent" else "transcript-bubble user"
  let speakerLabel := if isAgent then "Chatbot" else "Cliente"
  "<div class=\"" ++ bubbleClass ++ "\">"
    ++ "<span class=\"transcript-speaker\">" ++ speakerLabel ++ "</span>"
    ++ "<p class=\"transcript-text\">" ++ escapeHtml msg.text ++ "</p>"
    ++ "</div>"

/-- The concatenation of the per-message bubbles, in order. -/
def msgsHtml : List Msg → String
  | [] => ""
  | m :: rest => msgHtml m ++ msgsHtml rest

/-- Embeds `generateConversationHtml`: the wrapper div around the
per-message bubbles. -/
def generateConversationHtml (messages : List Msg) : String :=
  "<div class=\"transcript-conversation\">" ++ msgsHtml messages ++ "</div>"

/-- Embeds the body of the `try` block of `format`'s string case, given
the decoded JSON value: an array goes to `parseRetellArray`; an object
with a truthy array `transcript` field routes that nested array there;
anything else produces no messages. -/
def jsonDispatch (parsed : JsVal) : Except JsErr (List Msg) :=
  match parsed with
  | .vArr xs => parseRetellArray xs
  | _ =>
    match getField parsed "transcript" with
    | .error e => .error e
    | .ok r =>
      match truthyOpt r with
      | some (.vArr xs) => parseRetellArray xs
      | _ => .ok []

/-- Embeds the string case of `format` (after trimming): the JSON
attempt — whose `SyntaxError`s and `TypeError`s are both swallowed by
the `try`/`catch`, leaving `messages` empty — followed by the
plain-text parse when no messages were obtained. -/
def stringMessages (trimmed : String) : List Msg :=
  let fromJson : List Msg :=
    if headIsJsonStart trimmed then
      match jsonParse trimmed with
      | some parsed =>
        match jsonDispatch parsed with
        | .ok ms => ms
        | .error _ => []
      | none => []
    else []
  if fromJson.length = 0 then parseTextTranscript trimmed else fromJson

/-- The `messages` value `format` has computed by line 52: the
structured parse for arrays (uncaught exceptions propagate), the
JSON-then-text cascade for strings, and no messages otherwise. -/
def formatMessages : JsVal → Except JsErr (List Msg)
  | .vArr xs => parseRetellArray xs
  | .vStr s => .ok (stringMessages (jsTrim s))
  | _ => .ok []

/-- The fallback text of `format`: the original string, or
`JSON.stringify` of a non-string. -/
def plainTextOf : JsVal → String
  | .vStr s => s
  | t => jsonStringify t

/-- Embeds `format`: `''` for falsy input; otherwise the computed
messages render as a conversation, or — when there are none — the
original value renders as the escaped `transcript-plain` fallback
block. -/
def format (transcript : JsVal) : Except JsErr String :=
  if truthy transcript then
    match formatMessages transcript with
    | .error e => .error e
    | .ok messages =>
      if messages.length = 0 then
        .ok ("<div class=\"transcript-plain\">" ++ escapeHtml (plainTextOf transcript) ++ "</div>")
      else .ok (generateConversationHtml messages)
  else .ok ""

end TF

/-!
## The duplicate implementation inside src/app.js

The dashboard application keeps a second, textually identical copy of the
normalizer (`formatTranscriptAsConversation`, `parseRetellArray`,
`parseTextTranscript`, `normalizeRole`, `generateConversationHtml`,
`escapeHtml`) inside its own closure. It is embedded separately here so
that the behavioral equivalence of the two copies is a theorem about two
independent definitions, not a definitional identity. The host-runtime
primitives (`JSON.parse`, string methods, the DOM serializer) are the
same browser facilities for both copies and are shared.
-/

namespace App

/-- The `agentRoles` list of app.js's `normalizeRole`. -/
def agentRoles : List String :=
  ["agent", "ai", "bot", "asistente", "chatbot", "assistant", "agente"]

/-- Embeds app.js's `normalizeRole`. -/
def normalizeRole (role : String) : String :=
  if agentRoles.contains role then "agent" else "user"

/-- Embeds the speaker-detection chain of app.js's `parseRetellArray`. -/
def resolveSpeaker (item : JsVal) : Except JsErr String :=
  match getField item "role" with
  | .error e => .error e
  | .ok r1 =>
    match truthyOpt r1 with
    | some v => jsToLowerCase v
    | none =>
      match getField item "speaker" with
      | .error e => .error e
      | .ok r2 =>
        match truthyOpt r2 with
        | some v => jsToLowerCase v
        | none =>
          match getField item "type" with
          | .error e => .error e
          | .ok r3 =>
            match truthyOpt r3 with
            | some v => jsToLowerCase v
            | none => .ok ""

/-- Embeds app.js's per-word mapping and join stringification. -/
def wordsStrings : List JsVal → Except JsErr (List String)
  | [] => .ok []
  | w :: rest =>
    match getField w "word" with
    | .error e => .error e
    | .ok r =>
      let elem : JsVal :=
        match truthyOpt r with
        | some v => v
        | none => w
      match wordsStrings rest with
      | .error e => .error e
      | .ok tail => .ok (jsStringOf elem :: tail)

/-- Embeds app.js's `item.words.map(...).join(' ')`. -/
def wordsJoin : JsVal → Except JsErr String
  | .vArr ws =>
    match wordsStrings ws with
    | .error e => .error e
    | .ok strs => .ok (joinSep " " strs)
  | _ => .error .typeError

/-- Embeds the text-detection chain of app.js's `parseRetellArray`. -/
def resolveText (item : JsVal) : Except JsErr JsVal :=
  match getField item "content" with
  | .error e => .error e
  | .ok r1 =>
    match truthyOpt r1 with
    | some v => .ok v
    | none =>
      match getField item "text" with
      | .error e => .error e
      | .ok r2 =>
        match truthyOpt r2 with
        | some v => .ok v
        | none =>
          match getField item "message" with
          | .error e => .error e
          | .ok r3 =>
            match truthyOpt r3 with
            | some v => .ok v
            | none =>
              match getField item "words" with
              | .error e => .error e
              | .ok r4 =>
                match truthyOpt r4 with
                | some w =>
                  match wordsJoin w with
                  | .error e => .error e
                  | .ok s => .ok (.vStr s)
                | none => .ok (.vStr "")

/-- Embeds app.js's push condition `if (text && text.trim())`. -/
def pushCheck (text : JsVal) : Except JsErr (Option String) :=
  if truthy text then
    match text with
    | .vStr s => .ok (if jsTrim s = "" then none else some (jsTrim s))
    | _ => .error .typeError
  else .ok none

/-- Embeds app.js's `parseRetellArray`. -/
def parseRetellArray : List JsVal → Except JsErr (List Msg)
  | [] => .ok []
  | item :: rest =>
    match resolveSpeaker item with
    | .error e => .error e
    | .ok speaker =>
      match resolveText item with
      | .error e => .error e
      | .ok text =>
        match pushCheck text with
        | .error e => .error e
        | .ok none => parseRetellArray rest
        | .ok (some t) =>
          match parseRetellArray rest with
          | .error e => .error e
          | .ok tail => .ok (⟨normalizeRole speaker, t⟩ :: tail)

/-- The alternatives of app.js's `speakerRegex` literal, in order. -/
def speakerLabels : List String :=
  ["Agent", "User", "AI", "Customer", "Bot", "Cliente", "Asistente",
   "Chatbot", "Human", "Humano", "Assistant", "Agente"]

/-- First matching regex alternative, as in `TF.findLabel`. -/
def findLabel : List String → List Char → Option String
  | [], _ => none
  | lab :: rest, cs =>
    if ciStartsWith (lab.data ++ [':']) cs then some lab else findLabel rest cs

/-- Embeds app.js's `line.match(speakerRegex)`. -/
def matchSpeaker (cs : List Char) : Option (List Char × List Char) :=
  match findLabel speakerLabels cs with
  | none => none
  | some lab =>
    some (cs.take lab.data.length, (cs.drop (lab.data.length + 1)).dropWhile isJsSpace)

/-- Embeds the line loop of app.js's `parseTextTranscript`. -/
def parseTextLoop : List String → String → String → List Msg → List Msg
  | [], currentSpeaker, currentMessage, msgs =>
    if jsTrim currentMessage = "" then msgs
    else msgs ++ [⟨normalizeRole currentSpeaker, jsTrim currentMessage⟩]
  | rawLine :: rest, currentSpeaker, currentMessage, msgs =>
    let line := jsTrim rawLine
    if line = "" then parseTextLoop rest currentSpeaker currentMessage msgs
    else
      match matchSpeaker line.data with
      | some gr =>
        let msgs2 :=
          if jsTrim currentMessage = "" then msgs
          else msgs ++ [⟨normalizeRole currentSpeaker, jsTrim currentMessage⟩]
        parseTextLoop rest (lowerStr ⟨gr.1⟩) ⟨gr.2⟩ msgs2
      | none =>
        let newMsg := if currentMessage = "" then line else currentMessage ++ " " ++ line
        parseTextLoop rest currentSpeaker newMsg msgs

/-- Embeds app.js's `parseTextTranscript`. -/
def parseTextTranscript (text : String) : List Msg :=
  parseTextLoop (splitLines text) "" "" []

/-- Embeds app.js's `escapeHtml` (line 1105): the same falsy check and
DOM text-node round-trip as the module copy. -/
def escapeHtml (text : String) : String :=
  if text = "" then "" else textNodeSerialize text

/-- One loop iteration of app.js's `generateConversationHtml`. -/
def msgHtml (msg : Msg) : String :=
  let isAgent := msg.speaker == "agent"
  let bubbleClass := if isAgent then "transcript-bubble agent" else "transcript-bubble user"
  let speakerLabel := if isAgent then "Chatbot" else "Cliente"
  "<div class=\"" ++ bubbleClass ++ "\">"
    ++ "<span class=\"transcript-speaker\">" ++ speakerLabel ++ "</span>"
    ++ "<p class=\"transcript-text\">" ++ escapeHtml msg.text ++ "</p>"
    ++ "</div>"

/-- Concatenation of app.js's per-message bubbles. -/
def msgsHtml : List Msg → String
  | [] => ""
  | m :: rest => msgHtml m ++ msgsHtml rest

/-- Embeds app.js's `generateConversationHtml`. -/
def generateConversationHtml (messages : List Msg) : String :=
  "<div class=\"transcript-conversation\">" ++ msgsHtml messages ++ "</div>"

/-- Embeds the `try`-block dispatch of `formatTranscriptAsConversation`. -/
def jsonDispatch (parsed : JsVal) : Except JsErr (List Msg) :=
  match parsed with
  | .vArr xs => parseRetellArray xs
  | _ =>
    match getField parsed "transcript" with
    | .error e => .error e
    | .ok r =>
      match truthyOpt r with
      | some (.vArr xs) => parseRetellArray xs
      | _ => .ok []

/-- Embeds the string case of `formatTranscriptAsConversation`. -/
def stringMessages (trimmed : String) : List Msg :=
  let fromJson : List Msg :=
    if headIsJsonStart trimmed then
      match jsonParse trimmed with
      | some parsed =>
        match jsonDispatch parsed with
        | .ok ms => ms
        | .error _ => []
      | none => []
    else []
  if fromJson.length = 0 then parseTextTranscript trimmed else fromJson

/-- The `messages` value of `formatTranscriptAsConversation`. -/
def formatMessages : JsVal → Except JsErr (List Msg)
  | .vArr xs => parseRetellArray xs
  | .vStr s => .ok (stringMessages (jsTrim s))
  | _ => .ok []

/-- The fallback text of `formatTranscriptAsConversation`. -/
def plainTextOf : JsVal → String
  | .vStr s => s
  | t => jsonStringify t

/-- Embeds app.js's `formatTranscriptAsConversation` (lines 405-446). -/
def formatTranscriptAsConversation (transcript : JsVal) : Except JsErr String :=
  if truthy transcript then
    match formatMessages transcript with
    | .error e => .error e
    | .ok messages =>
      if messages.length = 0 then
        .ok ("<div class=\"transcript-plain\">" ++ escapeHtml (plainTextOf transcript) ++ "</div>")
      else .ok (generateConversationHtml messages)
  else .ok ""

end App

/-!
## A scanner for the injection property

To prove that no rendered output contains a `<script>` substring, a
three-state scanner walks the output and dies exactly when it has seen
the characters `<`, `s`, `c` consecutively — the first three characters
of `<script>`. -/

/-- Scanner state: nothing pending, just saw `<`, or saw `<s`; `dead`
records that `<sc` occurred somewhere. -/
inductive ScanSt where
  | s0
  | s1
  | s2
  | dead
  deriving DecidableEq

/-- Scanner transition on one character. -/
def scStep : ScanSt → Char → ScanSt
  | .dead, _ => .dead
  | .s1, c => if c = '<' then .s1 else if c = 's' then .s2 else .s0
  | .s2, c => if c = '<' then .s1 else if c = 'c' then .dead else .s0
  | .s0, c => if c = '<' then .s1 else .s0

/-- Run the scanner over a character list. -/
def scRun (st : ScanSt) (l : List Char) : ScanSt := l.foldl scStep st

/-- The character list `p` occurs contiguously inside `l`. -/
def occursIn (p l : List Char) : Prop := ∃ a b, l = a ++ (p ++ b)

/-!
## Helper lemmas

First, the pointwise equality of the two embedded copies, bottom-up. -/

theorem appEq_normalizeRole : App.normalizeRole = TF.normalizeRole := rfl

theorem appEq_resolveSpeaker : App.resolveSpeaker = TF.resolveSpeaker := rfl

theorem appEq_wordsStrings : ∀ l, App.wordsStrings l = TF.wordsStrings l := by
  intro l
  induction l with
  | nil => rfl
  | cons w rest ih => simp only [App.wordsStrings, TF.wordsStrings, ih]

theorem appEq_wordsJoin : ∀ v, App.wordsJoin v = TF.wordsJoin v := by
  intro v
  cases v <;> simp only [App.wordsJoin, TF.wordsJoin, appEq_wordsStrings]

theorem appEq_resolveText : ∀ item, App.resolveText item = TF.resolveText item := by
  intro item
  simp only [App.resolveText, TF.resolveText, appEq_wordsJoin]

theorem appEq_pushCheck : App.pushCheck = TF.pushCheck := rfl

theorem appEq_parseRetellArray : ∀ xs, App.parseRetellArray xs = TF.parseRetellArray xs := by
  intro xs
  induction xs with
  | nil => rfl
  | cons x rest ih =>
    simp only [App.parseRetellArray, TF.parseRetellArray, ih, appEq_resolveSpeaker,
      appEq_resolveText, appEq_pushCheck, appEq_normalizeRole]

theorem appEq_findLabel : ∀ labs cs, App.findLabel labs cs = TF.findLabel labs cs := by
  intro labs
  induction labs with
  | nil => intro cs; rfl
  | cons l rest ih => intro cs; simp only [App.findLabel, TF.findLabel, ih]

theorem appEq_speakerLabels : App.speakerLabels = TF.speakerLabels := rfl

theorem appEq_matchSpeaker : ∀ cs, App.matchSpeaker cs = TF.matchSpeaker cs := by
  intro cs
  simp only [App.matchSpeaker, TF.matchSpeaker, appEq_findLabel, appEq_speakerLabels]

theorem appEq_parseTextLoop : ∀ lines cs cm msgs,
    App.parseTextLoop lines cs cm msgs = TF.parseTextLoop lines cs cm msgs := by
  intro lines
  induction lines with
  | nil => intro cs cm msgs; rfl
  | cons l rest ih =>
    intro cs cm msgs
    simp only [App.parseTextLoop, TF.parseTextLoop, ih, appEq_matchSpeaker, appEq_normalizeRole]

theorem appEq_parseTextTranscript : ∀ s, App.parseTextTranscript s = TF.parseTextTranscript s := by
  intro s
  simp only [App.parseTextTranscript, TF.parseTextTranscript, appEq_parseTextLoop]

theorem appEq_escapeHtml : App.escapeHtml = TF.escapeHtml := rfl

theorem appEq_msgHtml : App.msgHtml = TF.msgHtml := rfl

theorem appEq_msgsHtml : ∀ ms, App.msgsHtml ms = TF.msgsHtml ms := by
  intro ms
  induction ms with
  | nil => rfl
  | cons m rest ih => simp only [App.msgsHtml, TF.msgsHtml, ih, appEq_msgHtml]

theorem appEq_generateConversationHtml : ∀ ms,
    App.generateConversationHtml ms = TF.generateConversationHtml ms := by
  intro ms
  simp only [App.generateConversationHtml, TF.generateConversationHtml, appEq_msgsHtml]

theorem appEq_jsonDispatch : ∀ p, App.jsonDispatch p = TF.jsonDispatch p := by
  intro p
  cases p <;> simp only [App.jsonDispatch, TF.jsonDispatch, appEq_parseRetellArray]

theorem appEq_stringMessages : ∀ s, App.stringMessages s = TF.stringMessages s := by
  intro s
  simp only [App.stringMessages, TF.stringMessages, appEq_jsonDispatch, appEq_parseTextTranscript]

theorem appEq_formatMessages : ∀ v, App.formatMessages v = TF.formatMessages v := by
  intro v
  cases v <;> simp only [App.formatMessages, TF.formatMessages, appEq_parseRetellArray,
    appEq_stringMessages]

theorem appEq_plainTextOf : App.plainTextOf = TF.plainTextOf := rfl

/-! Trimming: `jsTrim` is idempotent, so text the parsers have already
trimmed and checked non-blank stays non-blank under further trims. -/

theorem dw_head {p : Char → Bool} : ∀ {l c rest}, List.dropWhile p l = c :: rest → p c = false := by
  intro l
  induction l with
  | nil => intro c rest h; simp [List.dropWhile] at h
  | cons a t ih =>
    intro c rest h
    rw [List.dropWhile_cons] at h
    by_cases hp : p a
    · simp [hp] at h; exact ih h
    · simp [hp] at h; rw [← h.1]; simpa using hp

theorem dw_of_head_false {p : Char → Bool} :
    ∀ {l : List Char}, (∀ c rest, l = c :: rest → p c = false) → List.dropWhile p l = l := by
  intro l h
  cases l with
  | nil => rfl
  | cons a t => rw [List.dropWhile_cons, h a t rfl]; simp

theorem dw_getLast? {p : Char → Bool} :
    ∀ {l r : List Char}, List.dropWhile p l = r → r ≠ [] → r.getLast? = l.getLast? := by
  intro l
  induction l with
  | nil => intro r h hne; simp [List.dropWhile] at h; rw [← h] at hne; simp at hne
  | cons a t ih =>
    intro r h hne
    rw [List.dropWhile_cons] at h
    by_cases hp : p a
    · simp [hp] at h
      have ht : t ≠ [] := by
        intro he; rw [he] at h; simp [List.dropWhile] at h; rw [← h] at hne; simp at hne
      rw [ih h hne]
      cases t with
      | nil => simp at ht
      | cons b u => simp [List.getLast?_cons_cons]
    · simp [hp] at h
      rw [h]

theorem trimChars_idem (l : List Char) : trimChars (trimChars l) = trimChars l := by
  unfold trimChars
  cases hX : List.dropWhile isJsSpace (List.dropWhile isJsSpace l).reverse with
  | nil => simp
  | cons c rest =>
    have hm_ne : List.dropWhile isJsSpace l ≠ [] := by
      intro he; rw [he] at hX; simp [List.dropWhile] at hX
    obtain ⟨c0, m0, hm0⟩ : ∃ c0 m0, List.dropWhile isJsSpace l = c0 :: m0 := by
      cases hm : List.dropWhile isJsSpace l with
      | nil => exact absurd hm hm_ne
      | cons a b => exact ⟨a, b, rfl⟩
    have hc0 : isJsSpace c0 = false := dw_head hm0
    have hlast : (c :: rest).getLast? = some c0 := by
      have h1 := dw_getLast? hX (by simp)
      rw [h1, List.getLast?_reverse, hm0]
      rfl
    have hhead : (c :: rest).reverse.head? = some c0 := by
      rw [List.head?_reverse]; exact hlast
    have e1 : List.dropWhile isJsSpace (c :: rest).reverse = (c :: rest).reverse := by
      apply dw_of_head_false
      intro c2 r2 h2
      rw [h2] at hhead
      simp at hhead
      rw [hhead]
      exact hc0
    have hc : isJsSpace c = false := dw_head hX
    rw [e1, List.reverse_reverse, List.dropWhile_cons, hc]
    simp

theorem jsTrim_idem (s : String) : jsTrim (jsTrim s) = jsTrim s := by
  unfold jsTrim
  simp [trimChars_idem]

/-! The non-blank invariant of the two parsers. -/

theorem pushCheck_some {text : JsVal} {t : String} (h : TF.pushCheck text = .ok (some t)) :
    jsTrim t ≠ "" := by
  unfold TF.pushCheck at h
  split at h
  · cases text with
    | vStr s =>
      simp only at h
      split at h
      · simp at h
      · simp at h
        rw [← h]
        rw [jsTrim_idem]
        assumption
    | vNull => simp at h
    | vBool b => simp at h
    | vNum n => simp at h
    | vArr xs => simp at h
    | vObj fs => simp at h
  · simp at h

theorem parseRetellArray_nonblank : ∀ (xs : List JsVal) (ms : List Msg),
    TF.parseRetellArray xs = .ok ms → ∀ m ∈ ms, jsTrim m.text ≠ "" := by
  intro xs
  induction xs with
  | nil =>
    intro ms h
    simp [TF.parseRetellArray] at h
    rw [h]
    simp
  | cons x rest ih =>
    intro ms h
    unfold TF.parseRetellArray at h
    split at h
    · simp at h
    · split at h
      · simp at h
      · split at h
        · simp at h
        · exact ih ms h
        · split at h
          · simp at h
          · rename_i tail htail
            simp at h
            intro m hm
            rw [← h] at hm
            cases hm with
            | head => exact pushCheck_some (by assumption)
            | tail _ hmem => exact ih _ htail m hmem

theorem parseTextLoop_nonblank : ∀ (lines : List String) (cs cm : String) (acc : List Msg),
    (∀ m ∈ acc, jsTrim m.text ≠ "") →
    ∀ m ∈ TF.parseTextLoop lines cs cm acc, jsTrim m.text ≠ "" := by
  intro lines
  induction lines with
  | nil =>
    intro cs cm acc hacc m hm
    unfold TF.parseTextLoop at hm
    by_cases hcm : jsTrim cm = ""
    · rw [if_pos hcm] at hm
      exact hacc m hm
    · rw [if_neg hcm] at hm
      rw [List.mem_append] at hm
      cases hm with
      | inl h1 => exact hacc m h1
      | inr h2 =>
        simp at h2
        rw [h2]
        simp only
        rw [jsTrim_idem]
        assumption
  | cons l rest ih =>
    intro cs cm acc hacc m hm
    by_cases hline : jsTrim l = ""
    · rw [show TF.parseTextLoop (l :: rest) cs cm acc = TF.parseTextLoop rest cs cm acc by
        simp [TF.parseTextLoop, hline]] at hm
      exact ih _ _ _ hacc m hm
    · cases hms : TF.matchSpeaker (jsTrim l).data with
      | some gr =>
        rw [show TF.parseTextLoop (l :: rest) cs cm acc =
            TF.parseTextLoop rest (lowerStr ⟨gr.1⟩) ⟨gr.2⟩
              (if jsTrim cm = "" then acc
               else acc ++ [⟨TF.normalizeRole cs, jsTrim cm⟩]) by
          simp [TF.parseTextLoop, hline, hms]] at hm
        refine ih _ _ _ ?_ m hm
        intro m2 hm2
        by_cases hcm : jsTrim cm = ""
        · rw [if_pos hcm] at hm2
          exact hacc m2 hm2
        · rw [if_neg hcm] at hm2
          rw [List.mem_append] at hm2
          cases hm2 with
          | inl h1 => exact hacc m2 h1
          | inr h2 =>
            simp at h2
            rw [h2]
            simp only
            rw [jsTrim_idem]
            assumption
      | none =>
        rw [show TF.parseTextLoop (l :: rest) cs cm acc =
            TF.parseTextLoop rest cs (if cm = "" then jsTrim l else cm ++ " " ++ jsTrim l) acc by
          simp [TF.parseTextLoop, hline, hms]] at hm
        exact ih _ _ _ hacc m hm

/-! The scanner lemmas: rendered output never reaches the dead state,
hence never contains the character run the dead state records. -/

theorem data_append : ∀ (a b : String), (a ++ b).data = a.data ++ b.data := by
  intro a b
  cases a
  cases b
  rfl

theorem scRun_append (st : ScanSt) (a b : List Char) :
    scRun st (a ++ b) = scRun (scRun st a) b := List.foldl_append scStep st a b

theorem scRun_dead : ∀ (l : List Char), scRun .dead l = .dead := by
  intro l
  induction l with
  | nil => rfl
  | cons c rest ih => simpa [scRun, List.foldl_cons, scStep] using ih

theorem ltsc_dead (st : ScanSt) (a b : List Char) :
    scRun st (a ++ ('<' :: 's' :: 'c' :: b)) = .dead := by
  rw [scRun_append]
  have h1 : ∀ st2 : ScanSt, scRun st2 ('<' :: 's' :: 'c' :: b) = .dead := by
    intro st2
    show scRun (scStep (scStep (scStep st2 '<') 's') 'c') b = .dead
    cases st2 <;> simp [scStep] <;> exact scRun_dead b
  exact h1 _

theorem not_occursIn_of_scan {l : List Char} (h : scRun .s0 l ≠ .dead) :
    ¬ occursIn ['<', 's', 'c'] l := by
  intro hocc
  obtain ⟨a, b, hab⟩ := hocc
  rw [hab] at h
  exact h (ltsc_dead .s0 a b)

theorem script_to_ltsc {l : List Char} (h : occursIn "<script>".data l) :
    occursIn ['<', 's', 'c'] l := by
  obtain ⟨a, b, hab⟩ := h
  refine ⟨a, 'r' :: 'i' :: 'p' :: 't' :: '>' :: b, ?_⟩
  rw [hab]
  rfl

theorem scRun_s0_noLt : ∀ {l : List Char}, (∀ c ∈ l, c ≠ '<') → scRun .s0 l = .s0 := by
  intro l
  induction l with
  | nil => intro _; rfl
  | cons c rest ih =>
    intro h
    have hc : c ≠ '<' := h c (List.mem_cons_self c rest)
    show scRun (scStep .s0 c) rest = .s0
    rw [show scStep .s0 c = .s0 by simp [scStep, hc]]
    exact ih (fun c2 hc2 => h c2 (List.mem_cons_of_mem c hc2))

theorem escCharL_no_angle : ∀ (c : Char), ∀ d ∈ escCharL c, d ≠ '<' ∧ d ≠ '>' := by
  intro c d hd
  unfold escCharL at hd
  split at hd
  · rw [show "&amp;".data = ['&', 'a', 'm', 'p', ';'] from rfl] at hd
    simp only [List.mem_cons, List.not_mem_nil, or_false] at hd
    rcases hd with h | h | h | h | h <;> (subst h; decide)
  · split at hd
    · rw [show "&nbsp;".data = ['&', 'n', 'b', 's', 'p', ';'] from rfl] at hd
      simp only [List.mem_cons, List.not_mem_nil, or_false] at hd
      rcases hd with h | h | h | h | h | h <;> (subst h; decide)
    · split at hd
      · rw [show "&lt;".data = ['&', 'l', 't', ';'] from rfl] at hd
        simp only [List.mem_cons, List.not_mem_nil, or_false] at hd
        rcases hd with h | h | h | h <;> (subst h; decide)
      · split at hd
        · rw [show "&gt;".data = ['&', 'g', 't', ';'] from rfl] at hd
          simp only [List.mem_cons, List.not_mem_nil, or_false] at hd
          rcases hd with h | h | h | h <;> (subst h; decide)
        · rename_i h3 h4
          simp only [List.mem_cons, List.not_mem_nil, or_false] at hd
          subst hd
          constructor
          · intro he; rw [he] at h3; simp at h3
          · intro he; rw [he] at h4; simp at h4

theorem escapeHtml_no_angle : ∀ (s : String), ∀ c ∈ (TF.escapeHtml s).data, c ≠ '<' ∧ c ≠ '>' := by
  intro s c hc
  unfold TF.escapeHtml at hc
  split at hc
  · simp at hc
  · unfold textNodeSerialize at hc
    simp only [List.mem_flatMap] at hc
    obtain ⟨d, _, hd2⟩ := hc
    exact escCharL_no_angle d c hd2

theorem scRun_s0_concat {a b : List Char} (ha : scRun .s0 a = .s0) (hb : scRun .s0 b = .s0) :
    scRun .s0 (a ++ b) = .s0 := by
  rw [scRun_append, ha, hb]

theorem escapeHtml_scan (t : String) : scRun .s0 (TF.escapeHtml t).data = .s0 :=
  scRun_s0_noLt (fun c hc => (escapeHtml_no_angle t c hc).1)

theorem msgHtml_scan (m : Msg) : scRun .s0 (TF.msgHtml m).data = .s0 := by
  unfold TF.msgHtml
  by_cases hsp : m.speaker == "agent"
  · simp only [hsp, if_true, data_append, List.append_assoc]
    refine scRun_s0_concat (by decide) ?_
    refine scRun_s0_concat (by decide) ?_
    refine scRun_s0_concat (by decide) ?_
    refine scRun_s0_concat (by decide) ?_
    refine scRun_s0_concat (by decide) ?_
    refine scRun_s0_concat (by decide) ?_
    refine scRun_s0_concat (by decide) ?_
    exact scRun_s0_concat (escapeHtml_scan m.text) (scRun_s0_concat (by decide) (by decide))
  · simp only [hsp, if_false, data_append, List.append_assoc, Bool.false_eq_true]
    refine scRun_s0_concat (by decide) ?_
    refine scRun_s0_concat (by decide) ?_
    refine scRun_s0_concat (by decide) ?_
    refine scRun_s0_concat (by decide) ?_
    refine scRun_s0_concat (by decide) ?_
    refine scRun_s0_concat (by decide) ?_
    refine scRun_s0_concat (by decide) ?_
    exact scRun_s0_concat (escapeHtml_scan m.text) (scRun_s0_concat (by decide) (by decide))

theorem msgsHtml_scan : ∀ (ms : List Msg), scRun .s0 (TF.msgsHtml ms).data = .s0 := by
  intro ms
  induction ms with
  | nil => rfl
  | cons m rest ih =>
    unfold TF.msgsHtml
    rw [data_append]
    exact scRun_s0_concat (msgHtml_scan m) ih

theorem generateConversationHtml_scan (ms : List Msg) :
    scRun .s0 (TF.generateConversationHtml ms).data = .s0 := by
  unfold TF.generateConversationHtml
  simp only [data_append, List.append_assoc]
  refine scRun_s0_concat (by decide) ?_
  exact scRun_s0_concat (msgsHtml_scan ms) (by decide)

theorem format_scan : ∀ (v : JsVal) (out : String),
    TF.format v = .ok out → scRun .s0 out.data = .s0 := by
  intro v out h
  unfold TF.format at h
  split at h
  · split at h
    · simp at h
    · split at h
      · simp only [Except.ok.injEq] at h
        rw [← h]
        simp only [data_append, List.append_assoc]
        refine scRun_s0_concat (by decide) ?_
        exact scRun_s0_concat (escapeHtml_scan _) (by decide)
      · simp only [Except.ok.injEq] at h
        rw [← h]
        exact generateConversationHtml_scan _
  · simp only [Except.ok.injEq] at h
    rw [← h]
    rfl

/-! Shape lemmas about `format`. -/

theorem format_ok_of_messages {v : JsVal} {ms : List Msg} (h : TF.formatMessages v = .ok ms) :
    (TF.format v).isOk = true := by
  unfold TF.format
  split
  · rw [h]
    simp only []
    split <;> rfl
  · rfl

theorem format_fallback_of_no_messages {v : JsVal} (ht : truthy v = true)
    (h : TF.formatMessages v = .ok []) :
    TF.format v =
      .ok ("<div class=\"transcript-plain\">" ++ TF.escapeHtml (TF.plainTextOf v) ++ "</div>") := by
  unfold TF.format
  rw [ht, h]
  simp

/-!
## Claim theorems
-/

/-- Claim C1, counterexample: the claim says `format` returns a result
without any exception for every input shape, including arrays whose
entries carry non-string fields; but for the direct array input
`[null]` the speaker detection accesses `item.role` on `null` and the
resulting `TypeError` propagates to the caller — the array branch of
`format` is outside the `try`/`catch`. -/
theorem format_not_total_counterexample :
    TF.format (JsVal.vArr [JsVal.vNull]) = Except.error JsErr.typeError := rfl

/-- Claim C1, amended: `format` is total on every non-array input —
`null`, booleans, numbers, strings of any content (the string path
catches all structured-parse exceptions and the text parser is total),
and objects; only direct array inputs can surface a `TypeError`. -/
theorem format_total_on_non_array_inputs :
    ∀ v : JsVal, isArr v = false → (TF.format v).isOk = true := by
  intro v h
  cases v with
  | vArr xs => simp [isArr] at h
  | vNull => exact format_ok_of_messages rfl
  | vBool b => exact format_ok_of_messages rfl
  | vNum n => exact format_ok_of_messages rfl
  | vStr s => exact format_ok_of_messages rfl
  | vObj fs => exact format_ok_of_messages rfl

/-- Witness for C1 amended, at the concrete non-array input
`"hello world"`. -/
theorem format_total_on_non_array_inputs_witness :
    (TF.format (JsVal.vStr "hello world")).isOk = true :=
  format_total_on_non_array_inputs (JsVal.vStr "hello world") (by decide)

/-- Claim C2, counterexample: for the JSON string of an object with no
array and no transcript field, the normalizer does not produce zero
turns and does not return the raw-text fallback block — the JSON
attempt yields nothing, so the text parser runs and its final flush
emits one turn carrying the whole string. -/
theorem scenario_d_counterexample :
    TF.formatMessages (JsVal.vStr "\x7b\"foo\":\"bar\"\x7d") =
      Except.ok [⟨"user", "\x7b\"foo\":\"bar\"\x7d"⟩]
    ∧ TF.format (JsVal.vStr "\x7b\"foo\":\"bar\"\x7d") ≠
      Except.ok ("<div class=\"transcript-plain\">"
        ++ TF.escapeHtml "\x7b\"foo\":\"bar\"\x7d" ++ "</div>") := by
  constructor
  · rfl
  · intro h
    rw [show TF.format (JsVal.vStr "\x7b\"foo\":\"bar\"\x7d") =
        Except.ok (TF.generateConversationHtml [⟨"user", "\x7b\"foo\":\"bar\"\x7d"⟩]) from rfl] at h
    simp only [Except.ok.injEq] at h
    exact absurd h (by decide)

/-- Claim C2, amended: for input `"\x7b\"foo\":\"bar\"\x7d"` the JSON
path yields zero turns, the normalizer falls through to the plain-text
parser, which produces exactly one User turn whose text is the original
string, and the rendered output is that one-bubble conversation — not
the raw-text fallback block. -/
theorem scenario_d_one_user_turn :
    TF.formatMessages (JsVal.vStr "\x7b\"foo\":\"bar\"\x7d") =
      Except.ok [⟨"user", "\x7b\"foo\":\"bar\"\x7d"⟩]
    ∧ TF.format (JsVal.vStr "\x7b\"foo\":\"bar\"\x7d") =
      Except.ok (TF.generateConversationHtml [⟨"user", "\x7b\"foo\":\"bar\"\x7d"⟩]) :=
  ⟨rfl, rfl⟩

/-- Claim C3, counterexample: the escaping function does not neutralize
quotes — the DOM text-node serialization used by `escapeHtml` escapes
only `&`, `<`, `>` (and the no-break space), so a quote character
passes through to the output unchanged. -/
theorem escapeHtml_quote_counterexample :
    TF.escapeHtml "say \"hi\"" = "say \"hi\"" ∧ '"' ∈ (TF.escapeHtml "say \"hi\"").data :=
  ⟨rfl, by decide⟩

/-- Claim C3, amended: every piece of turn text reaching the final
rendered output has `<`, `>` and `&` neutralized (the escaped text
contains no raw `<` or `>` at all), and for any turn text containing
`<script>`, the rendered output of `format` contains no `<script>`
substring; quote characters, however, pass through unescaped. -/
theorem escaping_neutralizes_angle_brackets :
    (∀ s : String, ∀ c ∈ (TF.escapeHtml s).data, c ≠ '<' ∧ c ≠ '>')
    ∧ (∀ (v : JsVal) (out : String), TF.format v = Except.ok out →
        ¬ occursIn "<script>".data out.data) := by
  constructor
  · exact escapeHtml_no_angle
  · intro v out h hocc
    have hscan := format_scan v out h
    exact not_occursIn_of_scan (by rw [hscan]; intro hdead; cases hdead) (script_to_ltsc hocc)

/-- Witness for C3 amended: the escaped ampersand of `"a&b"` is neither
`<` nor `>`, and the rendered output for the input `<script>alert(1)</script>`
contains no `<script>` substring. -/
theorem escaping_neutralizes_angle_brackets_witness :
    ('&' ≠ '<' ∧ '&' ≠ '>')
    ∧ ¬ occursIn "<script>".data
        (TF.generateConversationHtml [⟨"user", "<script>alert(1)</script>"⟩]).data :=
  ⟨escaping_neutralizes_angle_brackets.1 "a&b" '&' (by decide),
   escaping_neutralizes_angle_brackets.2 (JsVal.vStr "<script>alert(1)</script>")
     (TF.generateConversationHtml [⟨"user", "<script>alert(1)</script>"⟩]) rfl⟩

/-- Claim C4: `normalizeRole` is total and binary — every string maps to
`"agent"` or `"user"`; exactly the members of the `agentRoles` list
(`agent`, `ai`, `bot`, `asistente`, `chatbot`, `assistant`, `agente`)
map to `"agent"`, and every other string maps to `"user"`. -/
theorem normalizeRole_total_binary :
    ∀ role : String,
      (TF.normalizeRole role = "agent" ∨ TF.normalizeRole role = "user")
      ∧ (role ∈ TF.agentRoles → TF.normalizeRole role = "agent")
      ∧ (role ∉ TF.agentRoles → TF.normalizeRole role = "user") := by
  intro role
  unfold TF.normalizeRole
  by_cases h : role ∈ TF.agentRoles
  · rw [if_pos (by rwa [List.elem_iff])]
    exact ⟨Or.inl rfl, fun _ => rfl, fun hn => absurd h hn⟩
  · rw [if_neg (by rwa [List.elem_iff])]
    exact ⟨Or.inr rfl, fun hmem => absurd hmem h, fun _ => rfl⟩

/-- Witness for C4, at the unrecognized label `"customer"`. -/
theorem normalizeRole_total_binary_witness :
    TF.normalizeRole "customer" = "user" :=
  (normalizeRole_total_binary "customer").2.2 (by decide)

/-- Claim C5: the three-line prefixed plain-text input parses to exactly
three turns, in order: Agent, User, Agent. -/
theorem plain_text_three_turn_scenario :
    TF.parseTextTranscript "Agent: Hello there\nUser: I need help\nAgent: Sure, one moment" =
      [⟨"agent", "Hello there"⟩, ⟨"user", "I need help"⟩, ⟨"agent", "Sure, one moment"⟩] := rfl

/-- Claim C6: the JSON string of an object whose `transcript` field is
an array routes that nested array to the structured parser, producing
exactly one Agent turn with text `"Hi"`, rendered as a conversation. -/
theorem nested_transcript_field_scenario :
    TF.parseRetellArray [.vObj [("speaker", .vStr "Bot"), ("text", .vStr "Hi")]] =
      Except.ok [⟨"agent", "Hi"⟩]
    ∧ TF.formatMessages
        (JsVal.vStr "\x7b\"transcript\":[\x7b\"speaker\":\"Bot\",\"text\":\"Hi\"\x7d]\x7d") =
      Except.ok [⟨"agent", "Hi"⟩]
    ∧ TF.format
        (JsVal.vStr "\x7b\"transcript\":[\x7b\"speaker\":\"Bot\",\"text\":\"Hi\"\x7d]\x7d") =
      Except.ok (TF.generateConversationHtml [⟨"agent", "Hi"⟩]) :=
  ⟨rfl, rfl, rfl⟩

/-- Claim C7: an entry with a `words` array resolves its text by joining
the `word` sub-fields with single spaces, producing one Agent turn
`"Good morning"`. -/
theorem words_array_scenario :
    TF.parseRetellArray
      [.vObj [("type", .vStr "agent"),
              ("words", .vArr [.vObj [("word", .vStr "Good")], .vObj [("word", .vStr "morning")]])]] =
      Except.ok [⟨"agent", "Good morning"⟩] := rfl

/-- Claim C8: every turn emitted by either parser has text that is
non-empty after trimming — blank-text entries and blank buffers
contribute no turn. -/
theorem parsed_turns_nonblank :
    (∀ (xs : List JsVal) (ms : List Msg),
      TF.parseRetellArray xs = .ok ms → ∀ m ∈ ms, jsTrim m.text ≠ "")
    ∧ (∀ s : String, ∀ m ∈ TF.parseTextTranscript s, jsTrim m.text ≠ "") :=
  ⟨parseRetellArray_nonblank,
   fun s => parseTextLoop_nonblank (splitLines s) "" "" [] (by simp)⟩

/-- Witness for C8, on one concrete structured entry and one concrete
text transcript. -/
theorem parsed_turns_nonblank_witness :
    jsTrim "Hi" ≠ "" ∧ jsTrim "hola" ≠ "" :=
  ⟨parsed_turns_nonblank.1 [.vObj [("role", .vStr "agent"), ("text", .vStr "Hi")]]
     [⟨"agent", "Hi"⟩] rfl ⟨"agent", "Hi"⟩ (by decide),
   parsed_turns_nonblank.2 "hola" ⟨"user", "hola"⟩ (by decide)⟩

/-- Claim C9: the two embedded copies of the normalizer — `TF.format`
from the TranscriptFormatter module and `App.formatTranscriptAsConversation`
from app.js — return identical output (including identical thrown
errors) on every input value. -/
theorem duplicate_normalizers_equivalent :
    ∀ v : JsVal, App.formatTranscriptAsConversation v = TF.format v := by
  intro v
  simp only [App.formatTranscriptAsConversation, TF.format, appEq_formatMessages,
    appEq_generateConversationHtml, appEq_plainTextOf, appEq_escapeHtml]

/-- Claim C10: array inputs go to the structured parser only (the text
parser is never consulted: the messages for an array input are exactly
the structured parse), and an array whose structured parse yields zero
turns renders as the fallback block containing the escaped JSON
stringification of the array. -/
theorem array_zero_turns_fallback :
    (∀ xs : List JsVal, TF.formatMessages (.vArr xs) = TF.parseRetellArray xs)
    ∧ (∀ xs : List JsVal, TF.parseRetellArray xs = .ok [] →
        TF.format (.vArr xs) =
          .ok ("<div class=\"transcript-plain\">"
            ++ TF.escapeHtml (jsonStringify (.vArr xs)) ++ "</div>")) := by
  constructor
  · intro xs; rfl
  · intro xs h
    exact format_fallback_of_no_messages rfl h

/-- Witness for C10, at the empty array. -/
theorem array_zero_turns_fallback_witness :
    TF.format (JsVal.vArr []) =
      .ok ("<div class=\"transcript-plain\">"
        ++ TF.escapeHtml (jsonStringify (JsVal.vArr [])) ++ "</div>") :=
  array_zero_turns_fallback.2 [] rfl

end DashStats
